import Mathlib

/-!
Shallow embedding of `src/bot/__main__.py` (Aristarch quiz bot).

The bot keeps per-user FSM state through aiogram's `FSMContext`:
a data dictionary holding the keys `topic`, `idx`, `score`, `results`
(written by `choose_topic` / `handle_answer`) and an FSM state which is
either unset or `ReportChoice.waiting` (the declared state
`QuizState.waiting_for_answer` is never set anywhere in the source).
We model the data dictionary as `Option SessionData` (`none` = cleared /
never written, as after `state.clear()`), and the FSM state as `FsmState`.

Correspondence to the spec's phases: a fresh session awaiting answers has
data present and FSM state unset (`FsmState.noState`); `AwaitingReportChoice`
is `FsmState.reportWaiting`; `Closed` is the cleared context (`data = none`,
state unset) left behind by `state.clear()`.

Python exceptions that can escape a handler (KeyError from `d["topic"]` or
`QUIZZES[topic]`, IndexError from list indexing) are modelled with `Err`.
`aiogram`'s MemoryStorage `get_data` returns a shallow copy, so
`d["results"].append(...)` mutates the stored list in place; the embedding
therefore treats the record list as updated in every branch of
`handle_answer`, including the final branch where only `score` is passed
to `update_data`.
-/

deriving instance DecidableEq for Except

namespace AristarchBot

/-- One question object of `quizzes.json`: `question`, `options`,
`correct` (index), optional `image_file`. -/
structure Question where
  question : String
  options : List String
  correct : Nat
  image_file : Option String
deriving DecidableEq, Repr

/-- The loaded `QUIZZES` mapping: topic name to its ordered question list. -/
abbrev Bank := List (String × List Question)

/-- Dictionary lookup `QUIZZES[topic]`: `none` models a KeyError. -/
def bankFind (b : Bank) (t : String) : Option (List Question) :=
  (b.find? (fun p => p.1 == t)).map Prod.snd

/-- `IMG_DIR` (`BASE_DIR.parent / "images"`), as an abstract path string. -/
def IMG_DIR : String := "images"

/-- `str(IMG_DIR / fname)`. -/
def imgPath (fname : String) : String := IMG_DIR ++ "/" ++ fname

/-- One entry of `d["results"]` as appended by `handle_answer`. -/
structure AnswerRecord where
  index : Nat
  question : String
  correct_answer : String
  image_path : Option String
  correct : Bool
deriving DecidableEq, Repr

/-- The FSM-context data dictionary contents (`topic`, `idx`, `score`,
`results`). -/
structure SessionData where
  topic : String
  idx : Nat
  score : Nat
  results : List AnswerRecord
deriving DecidableEq, Repr

/-- aiogram FSM state: unset, or `ReportChoice.waiting`.
(`QuizState.waiting_for_answer` is declared in the source but never set.) -/
inductive FsmState
  | noState
  | reportWaiting
deriving DecidableEq, Repr

/-- A user's FSM context: data dictionary (none = cleared) and FSM state. -/
structure FsmCtx where
  data : Option SessionData
  fsm : FsmState
deriving DecidableEq, Repr

/-- Python exceptions escaping a handler. -/
inductive Err
  | keyError
  | indexError
  | fpdfUnicode
deriving DecidableEq, Repr

/-- `ask_question`: reads `d["topic"]`, `d["idx"]`, evaluates
`QUIZZES[topic]` and `QUIZZES[topic][idx]`, then only sends a message.
Returns the exception it raises, if any (it performs no state change). -/
def ask_question (bank : Bank) (d : SessionData) : Option Err :=
  match bankFind bank d.topic with
  | none => some .keyError
  | some qs =>
    match qs[d.idx]? with
    | none => some .indexError
    | some _ => none

/-- `choose_topic`: `state.update_data(topic=topic, idx=0, score=0,
results=[])` — these four keys are the only data keys the program ever
writes, so the merge amounts to replacing the data — then `ask_question`.
The FSM state is NOT touched. `update_data` commits before `ask_question`
runs, so even when `ask_question` raises, the fresh data persists; the
pair returned is (context after the handler, escaped exception if any). -/
def choose_topic (bank : Bank) (ctx : FsmCtx) (topic : String) :
    FsmCtx × Option Err :=
  let d : SessionData := { topic := topic, idx := 0, score := 0, results := [] }
  ({ data := some d, fsm := ctx.fsm }, ask_question bank d)

/-- `handle_answer`: triggered by any `ans:<i>` callback — note the handler
carries NO FSM-state filter, so it runs in every FSM state. Reads
`d["topic"]`, `d["idx"]` (KeyError when the context was cleared), indexes
the bank, compares `chosen` with `q["correct"]`, appends the result record
(snapshot incl. `q["options"][q["correct"]]`), and either advances `idx`
or — after the last question — keeps `idx`, stores the score and sets
`ReportChoice.waiting`. -/
def handle_answer (bank : Bank) (ctx : FsmCtx) (chosen : Int) :
    Except Err FsmCtx :=
  match ctx.data with
  | none => .error .keyError
  | some d =>
    match bankFind bank d.topic with
    | none => .error .keyError
    | some qs =>
      match qs[d.idx]? with
      | none => .error .indexError
      | some q =>
        let correct : Bool := chosen == (q.correct : Int)
        match q.options[q.correct]? with
        | none => .error .indexError
        | some correctAnswer =>
          let record : AnswerRecord :=
            { index := d.idx
              question := q.question
              correct_answer := correctAnswer
              image_path := q.image_file.map imgPath
              correct := correct }
          let results := d.results ++ [record]
          let score := d.score + (if correct then 1 else 0)
          let next_idx := d.idx + 1
          if next_idx < qs.length then
            .ok ⟨some { d with idx := next_idx, score := score, results := results }, ctx.fsm⟩
          else
            .ok ⟨some { d with score := score, results := results }, .reportWaiting⟩

/-- Run a sequence of answer submissions, propagating the first exception. -/
def runAnswers (bank : Bank) (ctx : FsmCtx) : List Int → Except Err FsmCtx
  | [] => .ok ctx
  | c :: cs =>
    match handle_answer bank ctx c with
    | .error e => .error e
    | .ok ctx' => runAnswers bank ctx' cs

/-- Number of submissions whose choice equals that question's correct
index (questions paired positionally with the choices). -/
def countCorrect (qs : List Question) (cs : List Int) : Nat :=
  (cs.zip qs).countP (fun p => p.1 == (p.2.correct : Int))

/-- One line-group of the text report:
`f"{mark} *Вопрос {i}:* {q}\n *Верный ответ:* _{a}_"` with `i` 1-based. -/
def reportLine (i : Nat) (item : AnswerRecord) : String :=
  (if item.correct then "✅" else "❌") ++ " *Вопрос " ++ toString i ++ ":* "
    ++ item.question ++ "\n *Верный ответ:* _" ++ item.correct_answer ++ "_"

/-- The `lines` list built by `send_text_report` (1-based enumeration). -/
def reportLines (results : List AnswerRecord) : List String :=
  results.enum.map (fun p => reportLine (p.1 + 1) p.2)

/-- The chunking loop of `send_text_report`: before appending a line the
current chunk is flushed when `len(chunk) + len(line) > 3500`; each line
is appended as `line + "\n\n"`; a non-empty final chunk is flushed at the
end. Returns the emitted chunks in order. -/
def chunksAux : List String → String → List String
  | [], chunk => if chunk == "" then [] else [chunk]
  | line :: rest, chunk =>
    if chunk.length + line.length > 3500 then
      chunk :: chunksAux rest (line ++ "\n\n")
    else
      chunksAux rest (chunk ++ line ++ "\n\n")

/-- The sequence of messages `send_text_report` sends for a result log. -/
def send_text_report_chunks (results : List AnswerRecord) : List String :=
  chunksAux (reportLines results) ""

/-- Concatenation of a list of strings, in order. -/
def concatAll : List String → String
  | [] => ""
  | s :: rest => s ++ concatAll rest

/-- The single unchunked render: every line-group joined with the same
separator the chunker appends (`"\n\n"` after each line). -/
def unchunkedRender (results : List AnswerRecord) : String :=
  concatAll ((reportLines results).map (fun l => l ++ "\n\n"))

/-- The `send_text_report` handler: its aiogram filter admits it only in
`ReportChoice.waiting` (`none` = the callback is not routed to it);
when it runs it reads `d["results"]` (KeyError on a cleared context),
sends the chunks and then `state.clear()` empties both the data and the
FSM state. -/
def send_text_report (ctx : FsmCtx) : Option (Except Err (List String × FsmCtx)) :=
  if ctx.fsm = .reportWaiting then
    some (match ctx.data with
      | none => .error .keyError
      | some d => .ok (send_text_report_chunks d.results, ⟨none, .noState⟩))
  else
    none

/-! ### PDF generation (`build_pdf`) -/

/-- Filesystem/fpdf facts `build_pdf` consults: whether `FONT_PATH`
exists, whether `pdf.add_font` on it succeeds (a corrupt file raises),
whether an image path exists, and whether `pdf.image` succeeds on it
(an unrenderable image raises RuntimeError). -/
structure RenderEnv where
  fontFileExists : Bool
  fontLoadable : Bool
  imageExists : String → Bool
  imageRenders : String → Bool

/-- `font_ok` after the font-probing block of `build_pdf`. -/
def fontOk (env : RenderEnv) : Bool := env.fontFileExists && env.fontLoadable

/-- Whether a string survives Python's `"latin-1"` codec (all code points
below 256); with the Helvetica fallback font, fpdf raises
`FPDFUnicodeEncodingException` exactly on strings that do not. -/
def latin1Able (s : String) : Bool := s.data.all (fun c => c.toNat < 256)

/-- `text.encode("latin-1", "replace").decode("latin-1")`: characters
outside latin-1 become `"?"`. -/
def latin1Replace (s : String) : String :=
  String.mk (s.data.map (fun c => if c.toNat < 256 then c else '?'))

/-- Content elements of the produced PDF, in document order (page breaks
and fonts are layout attributes carried by the cells, not content). -/
inductive PdfElem
  | titleCell (s : String)
  | textCell (s : String)
  | image (path : String)
  | imagePlaceholder
deriving DecidableEq, Repr

/-- Body text of record `i` (1-based):
`f"{i}. {item['question']} — верный ответ: {item['correct_answer']}"`. -/
def pdfText (i : Nat) (item : AnswerRecord) : String :=
  toString i ++ ". " ++ item.question ++ " — верный ответ: " ++ item.correct_answer

/-- The `multi_cell` for a record's text, guarded by
`try/except FPDFUnicodeEncodingException` with a latin-1 `"replace"`
retry (the exception fires, with the fallback font, exactly on text
outside latin-1; the Unicode font raises nothing). -/
def pdfTextElem (env : RenderEnv) (i : Nat) (item : AnswerRecord) : PdfElem :=
  let text := pdfText i item
  if fontOk env then .textCell text
  else if latin1Able text then .textCell text
  else .textCell (latin1Replace text)

/-- The elements one result record contributes: its text cell, then —
when `item["image_path"]` is truthy (non-None, non-empty) and the file
exists — the embedded image, degrading to the `"[Ошибка изображения]"`
cell when `pdf.image` raises RuntimeError; a missing file contributes
nothing beyond the text. -/
def recordElems (env : RenderEnv) (i : Nat) (item : AnswerRecord) : List PdfElem :=
  let textElem := pdfTextElem env i item
  match item.image_path with
  | none => [textElem]
  | some p =>
    if p = "" then [textElem]
    else if env.imageExists p then
      if env.imageRenders p then [textElem, .image p]
      else [textElem, .imagePlaceholder]
    else [textElem]

/-- `build_pdf`: probes the Unicode font, renders the title with
`pdf.cell(0, 10, title, ...)` — which is NOT guarded: with the ASCII
fallback font, a title outside latin-1 raises
`FPDFUnicodeEncodingException` and the whole build fails — then renders
every record (1-based enumeration). Returns the document's content
elements in order. -/
def build_pdf (env : RenderEnv) (title : String) (results : List AnswerRecord) :
    Except Err (List PdfElem) :=
  if !fontOk env && !latin1Able title then
    .error .fpdfUnicode
  else
    .ok (.titleCell title ::
      (results.enum.map (fun p => recordElems env (p.1 + 1) p.2)).flatten)

/-- Whether a PDF content element carries only latin-1-representable
text (image elements carry no text). -/
def pdfElemLatin1 : PdfElem → Bool
  | .titleCell s => latin1Able s
  | .textCell s => latin1Able s
  | .image _ => true
  | .imagePlaceholder => true

/-! ### PDF report delivery (`send_pdf_report`) -/

/-- Observable effects of one `send_pdf_report` invocation. -/
structure SendPdfOutcome where
  delivered : Bool
  fileRemoved : Bool
  stateCleared : Bool
  raised : Bool
deriving DecidableEq, Repr

/-- `send_pdf_report` after a successful `build_pdf`: straight-line
`await cb.message.answer_document(...)`, `os.remove(pdf_path)`,
`await state.clear()` with no `try`/`finally` or context manager — a
delivery exception propagates immediately, skipping both the removal and
the clear. -/
def send_pdf_report (deliveryOk : Bool) : SendPdfOutcome :=
  if deliveryOk then
    { delivered := true, fileRemoved := true, stateCleared := true, raised := false }
  else
    { delivered := false, fileRemoved := false, stateCleared := false, raised := true }

/-! ### Question-bank loading -/

/-- The condition of the `quizzes.json` source: absent file, present but
syntactically invalid JSON, or JSON that parses to a bank value. -/
inductive BankSource
  | absent
  | invalidJson
  | parsed (bank : Bank)

/-- The fatal startup errors the loader raises (both as RuntimeError). -/
inductive LoadErr
  | notFound
  | jsonSyntax
deriving DecidableEq, Repr

/-- Module-level loading of `QUIZZES`: `json.load` inside
`try/except FileNotFoundError/json.JSONDecodeError`. Whatever the JSON
parses to is accepted as-is — no structural validation of fields, topics
or indices takes place. -/
def loadBank : BankSource → Except LoadErr Bank
  | .absent => .error .notFound
  | .invalidJson => .error .jsonSyntax
  | .parsed b => .ok b

/-! ### Concrete fixtures (for counterexamples and witnesses) -/

/-- A one-question topic: correct option is index 1. -/
def q0 : Question := ⟨"2+2?", ["3", "4"], 1, none⟩

/-- A bank with the single topic `"математика"`. -/
def bank1 : Bank := [("математика", [q0])]

/-- The record `handle_answer` appends for a correct answer to `q0`. -/
def rec0done : AnswerRecord := ⟨0, "2+2?", "4", none, true⟩

/-- A fresh context for `bank1`'s topic, as `choose_topic` creates it. -/
def ctxFresh1 : FsmCtx := ⟨some ⟨"математика", 0, 0, []⟩, .noState⟩

/-- The context after answering `bank1`'s only question correctly:
score stored, record appended, `ReportChoice.waiting` set. -/
def ctxDone : FsmCtx := ⟨some ⟨"математика", 0, 1, [rec0done]⟩, .reportWaiting⟩

/-- Two-question topic for multi-step runs. -/
def qA : Question := ⟨"qA", ["a", "b"], 0, none⟩

/-- Second question of the two-question topic. -/
def qB : Question := ⟨"qB", ["c", "d"], 1, none⟩

/-- A bank with one two-question topic `"т2"`. -/
def bank2 : Bank := [("т2", [qA, qB])]

/-- A question text of 3500 characters. -/
def bigQuestion : String := String.mk (List.replicate 3500 'a')

/-- A result record whose report line-group exceeds 3500 characters. -/
def bigRecord : AnswerRecord := ⟨0, bigQuestion, "b", none, false⟩

/-- A small result record. -/
def rec0small : AnswerRecord := ⟨0, "q", "a", none, true⟩

/-- Render environment with no Unicode font available at `FONT_PATH`. -/
def envNoFont : RenderEnv := ⟨false, false, fun _ => false, fun _ => false⟩

/-- Render environment: font fine, no image file exists. -/
def envA : RenderEnv := ⟨true, true, fun _ => false, fun _ => false⟩

/-- Render environment: font fine, image files exist but `pdf.image`
raises RuntimeError on them. -/
def envB : RenderEnv := ⟨true, true, fun _ => true, fun _ => false⟩

/-- A record carrying an image reference. -/
def recImg : AnswerRecord := ⟨0, "q", "a", some "images/pic.png", true⟩

/-- A question whose `correct` index is out of range for its options. -/
def badQuestion : Question := ⟨"q", ["a", "b"], 5, none⟩

/-- A structurally malformed bank (out-of-range correct index). -/
def badBank : Bank := [("тема", [badQuestion])]

/-! ## Theorems -/

/-! ### Helper lemmas -/

/-- A record's text cell is always a `textCell` element. -/
lemma pdfTextElem_is_textCell (env : RenderEnv) (j : Nat) (item : AnswerRecord) :
    ∃ s, pdfTextElem env j item = PdfElem.textCell s := by
  by_cases h1 : fontOk env = true
  · exact ⟨pdfText j item, by simp [pdfTextElem, h1]⟩
  · by_cases h2 : latin1Able (pdfText j item) = true
    · exact ⟨pdfText j item, by simp [pdfTextElem, h1, h2]⟩
    · exact ⟨latin1Replace (pdfText j item), by simp [pdfTextElem, h1, h2]⟩

/-- Every record's element group contains its text cell. -/
lemma pdfTextElem_mem_recordElems (env : RenderEnv) (j : Nat) (item : AnswerRecord) :
    pdfTextElem env j item ∈ recordElems env j item := by
  cases hip : item.image_path with
  | none => simp [recordElems, hip]
  | some q =>
    simp only [recordElems, hip]
    split_ifs <;> simp

/-- An image element appears in a record's element group only if that
image file exists in the environment. -/
lemma image_mem_recordElems (env : RenderEnv) (j : Nat) (item : AnswerRecord)
    (p : String) (h : PdfElem.image p ∈ recordElems env j item) :
    env.imageExists p = true := by
  obtain ⟨s, hs⟩ := pdfTextElem_is_textCell env j item
  cases hip : item.image_path with
  | none =>
    simp only [recordElems, hip] at h
    rw [hs] at h
    simp at h
  | some q =>
    simp only [recordElems, hip] at h
    by_cases h1 : q = ""
    · rw [if_pos h1] at h
      rw [hs] at h
      simp at h
    · rw [if_neg h1] at h
      by_cases h2 : env.imageExists q = true
      · by_cases h3 : env.imageRenders q = true
        · rw [if_pos h2, if_pos h3, hs] at h
          simp at h
          rw [h]
          exact h2
        · rw [if_pos h2, if_neg h3, hs] at h
          simp at h
      · rw [if_neg h2, hs] at h
        simp at h

/-- Splitting `countCorrect` along a first question/choice pair. -/
lemma countCorrect_cons (q : Question) (qs : List Question) (c : Int) (cs : List Int) :
    countCorrect (q :: qs) (c :: cs) =
      countCorrect qs cs + (if c == (q.correct : Int) then 1 else 0) := by
  simp [countCorrect, List.countP_cons]

/-- A full run of the remaining questions: starting anywhere inside the
topic with exactly as many submissions as questions left, `runAnswers`
ends in `ReportChoice.waiting` with the score increased by the number of
correct choices and one record appended per submission. -/
lemma runAnswers_complete (bank : Bank) (qs : List Question) (fsm : FsmState) :
    ∀ (cs : List Int) (d : SessionData),
      bankFind bank d.topic = some qs →
      (∀ q ∈ qs, q.correct < q.options.length) →
      d.idx + cs.length = qs.length →
      cs ≠ [] →
      ∃ d', runAnswers bank ⟨some d, fsm⟩ cs = .ok ⟨some d', .reportWaiting⟩ ∧
        d'.score = d.score + countCorrect (qs.drop d.idx) cs ∧
        d'.results.length = d.results.length + cs.length := by
  intro cs
  induction cs with
  | nil => intro d _ _ _ hne; exact absurd rfl hne
  | cons c cs ih =>
    intro d hfind hwf hlen _
    have hidx : d.idx < qs.length := by simp at hlen; omega
    have hq : qs[d.idx]? = some qs[d.idx] := List.getElem?_eq_getElem hidx
    have hcorr : (qs[d.idx]).correct < (qs[d.idx]).options.length :=
      hwf _ (List.getElem_mem hidx)
    have hca : (qs[d.idx]).options[(qs[d.idx]).correct]? =
        some ((qs[d.idx]).options[(qs[d.idx]).correct]) :=
      List.getElem?_eq_getElem hcorr
    have hdrop : qs.drop d.idx = qs[d.idx] :: qs.drop (d.idx + 1) :=
      List.drop_eq_getElem_cons hidx
    cases cs with
    | nil =>
      have hlast : ¬ (d.idx + 1 < qs.length) := by simp at hlen; omega
      refine ⟨⟨d.topic, d.idx,
          d.score + (if c == ((qs[d.idx]).correct : Int) then 1 else 0),
          d.results ++ [⟨d.idx, (qs[d.idx]).question,
            (qs[d.idx]).options[(qs[d.idx]).correct],
            (qs[d.idx]).image_file.map imgPath,
            c == ((qs[d.idx]).correct : Int)⟩]⟩, ?_, ?_, by simp⟩
      · simp [runAnswers, handle_answer, hfind, hq, hca, hlast]
      · rw [hdrop, countCorrect_cons]
        simp [countCorrect]
    | cons c2 cs2 =>
      have hlt : d.idx + 1 < qs.length := by simp at hlen; omega
      have hstep : handle_answer bank ⟨some d, fsm⟩ c =
          .ok ⟨some ⟨d.topic, d.idx + 1,
            d.score + (if c == ((qs[d.idx]).correct : Int) then 1 else 0),
            d.results ++ [⟨d.idx, (qs[d.idx]).question,
              (qs[d.idx]).options[(qs[d.idx]).correct],
              (qs[d.idx]).image_file.map imgPath,
              c == ((qs[d.idx]).correct : Int)⟩]⟩, fsm⟩ := by
        simp [handle_answer, hfind, hq, hca, hlt]
      obtain ⟨d', hrun, hscore, hreslen⟩ := ih
        ⟨d.topic, d.idx + 1,
          d.score + (if c == ((qs[d.idx]).correct : Int) then 1 else 0),
          d.results ++ [⟨d.idx, (qs[d.idx]).question,
            (qs[d.idx]).options[(qs[d.idx]).correct],
            (qs[d.idx]).image_file.map imgPath,
            c == ((qs[d.idx]).correct : Int)⟩]⟩
        hfind hwf (by simp at hlen ⊢; omega) (by simp)
      refine ⟨d', ?_, ?_, ?_⟩
      · simp only [runAnswers, hstep]
        exact hrun
      · rw [hscore, hdrop, countCorrect_cons]
        simp only []
        omega
      · rw [hreslen]
        simp
        omega

/-- A partial run: with strictly fewer submissions than questions remain,
the FSM state is never touched. -/
lemma runAnswers_partial (bank : Bank) (qs : List Question) (fsm : FsmState) :
    ∀ (cs : List Int) (d : SessionData),
      bankFind bank d.topic = some qs →
      (∀ q ∈ qs, q.correct < q.options.length) →
      d.idx + cs.length < qs.length →
      ∃ d', runAnswers bank ⟨some d, fsm⟩ cs = .ok ⟨some d', fsm⟩ := by
  intro cs
  induction cs with
  | nil => intro d _ _ _; exact ⟨d, rfl⟩
  | cons c cs ih =>
    intro d hfind hwf hlen
    have hidx : d.idx < qs.length := by simp at hlen; omega
    have hq : qs[d.idx]? = some qs[d.idx] := List.getElem?_eq_getElem hidx
    have hcorr : (qs[d.idx]).correct < (qs[d.idx]).options.length :=
      hwf _ (List.getElem_mem hidx)
    have hca : (qs[d.idx]).options[(qs[d.idx]).correct]? =
        some ((qs[d.idx]).options[(qs[d.idx]).correct]) :=
      List.getElem?_eq_getElem hcorr
    have hlt : d.idx + 1 < qs.length := by simp at hlen; omega
    have hstep : handle_answer bank ⟨some d, fsm⟩ c =
        .ok ⟨some ⟨d.topic, d.idx + 1,
          d.score + (if c == ((qs[d.idx]).correct : Int) then 1 else 0),
          d.results ++ [⟨d.idx, (qs[d.idx]).question,
            (qs[d.idx]).options[(qs[d.idx]).correct],
            (qs[d.idx]).image_file.map imgPath,
            c == ((qs[d.idx]).correct : Int)⟩]⟩, fsm⟩ := by
      simp [handle_answer, hfind, hq, hca, hlt]
    obtain ⟨d', hrun⟩ := ih
      ⟨d.topic, d.idx + 1,
        d.score + (if c == ((qs[d.idx]).correct : Int) then 1 else 0),
        d.results ++ [⟨d.idx, (qs[d.idx]).question,
          (qs[d.idx]).options[(qs[d.idx]).correct],
          (qs[d.idx]).image_file.map imgPath,
          c == ((qs[d.idx]).correct : Int)⟩]⟩
      hfind hwf (by simp at hlen ⊢; omega)
    refine ⟨d', ?_⟩
    simp only [runAnswers, hstep]
    exact hrun

/-- Appending the separator keeps a chunk non-empty. -/
lemma append_nn_ne_empty (s : String) : s ++ "\n\n" ≠ "" := by
  intro h
  have hlen := congrArg String.length h
  rw [String.length_append] at hlen
  have h2 : ("\n\n" : String).length = 2 := rfl
  have h0 : ("" : String).length = 0 := rfl
  rw [h2, h0] at hlen
  omega

/-- Concatenating everything the chunking loop emits recovers the
pending chunk followed by all remaining lines with their separators. -/
lemma concat_chunksAux : ∀ (ls : List String) (c : String),
    concatAll (chunksAux ls c) = c ++ concatAll (ls.map (fun l => l ++ "\n\n")) := by
  intro ls
  induction ls with
  | nil =>
    intro c
    by_cases hc : c = ""
    · simp [chunksAux, hc, concatAll]
    · simp [chunksAux, hc, concatAll]
  | cons l rest ih =>
    intro c
    by_cases h : c.length + l.length > 3500
    · simp only [chunksAux, if_pos h, concatAll, ih, List.map_cons]
    · simp only [chunksAux, if_neg h, concatAll, ih, List.map_cons]
      simp [String.append_assoc]

/-- The chunking loop with a non-empty pending chunk emits something. -/
lemma chunksAux_ne_nil : ∀ (ls : List String) (c : String),
    c ≠ "" → chunksAux ls c ≠ [] := by
  intro ls
  induction ls with
  | nil =>
    intro c hc
    simp [chunksAux, hc]
  | cons l rest ih =>
    intro c hc
    by_cases h : c.length + l.length > 3500
    · simp [chunksAux, if_pos h]
    · simp only [chunksAux, if_neg h]
      exact ih _ (append_nn_ne_empty (c ++ l))

/-- The last chunk the loop emits is never empty. -/
lemma chunksAux_getLast_ne_empty : ∀ (ls : List String) (c x : String),
    (chunksAux ls c).getLast? = some x → x ≠ "" := by
  intro ls
  induction ls with
  | nil =>
    intro c x h
    by_cases hc : c = ""
    · simp [chunksAux, hc] at h
    · simp [chunksAux, hc] at h
      rw [← h]
      exact hc
  | cons l rest ih =>
    intro c x h
    by_cases hcond : c.length + l.length > 3500
    · simp only [chunksAux, if_pos hcond] at h
      have hne : chunksAux rest (l ++ "\n\n") ≠ [] :=
        chunksAux_ne_nil rest _ (append_nn_ne_empty l)
      obtain ⟨y, ys, hys⟩ := List.exists_cons_of_ne_nil hne
      rw [hys, List.getLast?_cons_cons] at h
      exact ih _ x (by rw [hys]; exact h)
    · simp only [chunksAux, if_neg hcond] at h
      exact ih _ x h

/-- When every line fits in 3500 characters, every chunk the loop emits
stays within 3502 characters (the 3500 bound plus the two-character
separator the loop appends after checking the bound). -/
lemma chunksAux_bound : ∀ (ls : List String) (c : String),
    (∀ l ∈ ls, l.length ≤ 3500) → c.length ≤ 3502 →
    ∀ x ∈ chunksAux ls c, x.length ≤ 3502 := by
  intro ls
  induction ls with
  | nil =>
    intro c _ hc x hx
    by_cases h : c = ""
    · simp [chunksAux, h] at hx
    · simp [chunksAux, h] at hx
      rw [hx]
      exact hc
  | cons l rest ih =>
    intro c hls hc x hx
    have hl : l.length ≤ 3500 := hls l (by simp)
    have hrest : ∀ l' ∈ rest, l'.length ≤ 3500 := fun l' h' => hls l' (by simp [h'])
    have h2 : ("\n\n" : String).length = 2 := rfl
    by_cases hcond : c.length + l.length > 3500
    · simp only [chunksAux, if_pos hcond] at hx
      rcases List.mem_cons.mp hx with rfl | hx
      · exact hc
      · refine ih _ hrest ?_ x hx
        rw [String.length_append, h2]
        omega
    · simp only [chunksAux, if_neg hcond] at hx
      refine ih _ hrest ?_ x hx
      rw [String.length_append, String.length_append, h2]
      omega

/-- latin-1 `"replace"` output is always latin-1 representable. -/
lemma latin1Able_latin1Replace (s : String) : latin1Able (latin1Replace s) = true := by
  unfold latin1Able latin1Replace
  rw [List.all_eq_true]
  intro c hc
  simp only [List.mem_map] at hc
  obtain ⟨a, _, rfl⟩ := hc
  by_cases h : a.toNat < 256
  · simp [h]
  · simp [h]

/-- With the fallback font, a record's text cell is always rendered with
latin-1-representable text. -/
lemma pdfElemLatin1_pdfTextElem (env : RenderEnv) (i : Nat) (item : AnswerRecord)
    (h : fontOk env = false) : pdfElemLatin1 (pdfTextElem env i item) = true := by
  cases ht : latin1Able (pdfText i item) with
  | false => simp [pdfTextElem, h, ht, pdfElemLatin1, latin1Able_latin1Replace]
  | true => simp [pdfTextElem, h, ht, pdfElemLatin1]

/-- With the fallback font, every element a record contributes carries
only latin-1-representable text. -/
lemma pdfElemLatin1_recordElems (env : RenderEnv) (i : Nat) (item : AnswerRecord)
    (h : fontOk env = false) :
    ∀ e ∈ recordElems env i item, pdfElemLatin1 e = true := by
  intro e he
  have htext := pdfElemLatin1_pdfTextElem env i item h
  cases hip : item.image_path with
  | none =>
    simp only [recordElems, hip] at he
    simp at he
    rw [he]
    exact htext
  | some p =>
    simp only [recordElems, hip] at he
    by_cases h1 : p = ""
    · rw [if_pos h1] at he
      simp at he
      rw [he]
      exact htext
    · rw [if_neg h1] at he
      by_cases h2 : env.imageExists p = true
      · rw [if_pos h2] at he
        by_cases h3 : env.imageRenders p = true
        · rw [if_pos h3] at he
          simp at he
          rcases he with he | he
          · rw [he]; exact htext
          · rw [he]; rfl
        · rw [if_neg h3] at he
          simp at he
          rcases he with he | he
          · rw [he]; exact htext
          · rw [he]; rfl
      · rw [if_neg h2] at he
        simp at he
        rw [he]
        exact htext

/-- C1 counterexample: a completed session sits in `ReportChoice.waiting`
(reached here by running `bank1`'s one-question quiz). A duplicate `ans:1`
callback does NOT fail: `handle_answer` has no FSM-state filter, so it
re-scores the question — score becomes 2 and the record is duplicated —
contradicting the claimed `InvalidStateError` rejection with unchanged
fields. -/
theorem C1_counterexample :
    runAnswers bank1 ctxFresh1 [1] = .ok ctxDone ∧
    handle_answer bank1 ctxDone 1 =
      .ok ⟨some ⟨"математика", 0, 2, [rec0done, rec0done]⟩, .reportWaiting⟩ ∧
    (⟨some ⟨"математика", 0, 2, [rec0done, rec0done]⟩,
        FsmState.reportWaiting⟩ : FsmCtx) ≠ ctxDone := by
  decide

/-- C1 (amended): in the cleared (`Closed`) context the answer callback
fails with a KeyError — not an `InvalidStateError` — and while awaiting
the report choice it is NOT rejected at all: the submission is
re-processed, appending a duplicate `AnswerRecord` and re-adding to the
score, and the session stays in the report-choice phase. -/
theorem C1_theorem (bank : Bank) (ctx : FsmCtx) (chosen : Int) :
    (ctx.data = none → handle_answer bank ctx chosen = .error Err.keyError) ∧
    (∀ d qs q ca, ctx.fsm = .reportWaiting → ctx.data = some d →
      bankFind bank d.topic = some qs → qs[d.idx]? = some q →
      q.options[q.correct]? = some ca →
      ∃ d', handle_answer bank ctx chosen = .ok ⟨some d', .reportWaiting⟩ ∧
        d'.results = d.results ++
          [⟨d.idx, q.question, ca, q.image_file.map imgPath,
            chosen == (q.correct : Int)⟩] ∧
        d'.score = d.score + (if chosen == (q.correct : Int) then 1 else 0)) := by
  constructor
  · intro h
    simp [handle_answer, h]
  · intro d qs q ca hfsm hd hfind hq hca
    by_cases hlt : d.idx + 1 < qs.length
    · refine ⟨⟨d.topic, d.idx + 1,
          d.score + (if chosen == (q.correct : Int) then 1 else 0),
          d.results ++
            [⟨d.idx, q.question, ca, q.image_file.map imgPath,
              chosen == (q.correct : Int)⟩]⟩, ?_, rfl, rfl⟩
      simp [handle_answer, hd, hfind, hq, hca, hlt, hfsm]
    · refine ⟨⟨d.topic, d.idx,
          d.score + (if chosen == (q.correct : Int) then 1 else 0),
          d.results ++
            [⟨d.idx, q.question, ca, q.image_file.map imgPath,
              chosen == (q.correct : Int)⟩]⟩, ?_, rfl, rfl⟩
      simp [handle_answer, hd, hfind, hq, hca, hlt]

/-- C1 witness: the amended statement applied at the completed `bank1`
session. -/
theorem C1_theorem_witness :
    ∃ d', handle_answer bank1 ctxDone 1 = .ok ⟨some d', .reportWaiting⟩ ∧
      d'.results = [rec0done] ++
        [⟨0, q0.question, "4", q0.image_file.map imgPath,
          (1 : Int) == (q0.correct : Int)⟩] ∧
      d'.score = 1 + (if (1 : Int) == (q0.correct : Int) then 1 else 0) :=
  (C1_theorem bank1 ctxDone 1).2 ⟨"математика", 0, 1, [rec0done]⟩ [q0] q0 "4"
    rfl rfl rfl rfl rfl

/-- C3 (amended): selecting a topic writes the fresh data
`idx=0, score=0, results=[]` (discarding all prior progress), but leaves
the aiogram FSM state exactly as it was — it does not reset the phase to
the answering phase. -/
theorem C3_theorem (bank : Bank) (ctx : FsmCtx) (t : String) :
    (choose_topic bank ctx t).1.data = some ⟨t, 0, 0, []⟩ ∧
    (choose_topic bank ctx t).1.fsm = ctx.fsm :=
  ⟨rfl, rfl⟩

/-- C3 counterexample: re-selecting a topic from a completed session
(phase `ReportChoice.waiting`) leaves the new session still in
`ReportChoice.waiting`, not in the answering phase a genuinely fresh
session has: the old report-choice phase remains observable — the text
report handler still fires for it, while it never fires for a truly
fresh session. -/
theorem C3_counterexample :
    (choose_topic bank1 ctxDone "математика").1.fsm = FsmState.reportWaiting ∧
    FsmState.reportWaiting ≠ FsmState.noState ∧
    send_text_report (choose_topic bank1 ctxDone "математика").1 ≠ none ∧
    send_text_report ctxFresh1 = none := by
  decide

/-- C6 counterexample: when `answer_document` fails, the exception
propagates before `os.remove`, so the transient PDF is NOT deleted —
contradicting deletion on every exit path. -/
theorem C6_counterexample :
    (send_pdf_report false).fileRemoved = false ∧
    (send_pdf_report false).raised = true := by
  decide

/-- C6 (amended): the transient PDF is removed only on the successful
delivery path; on delivery failure the exception propagates first, the
file is leaked and the state is not cleared (straight-line code, no
`try`/`finally`). -/
theorem C6_theorem :
    send_pdf_report true =
      ⟨true, true, true, false⟩ ∧
    send_pdf_report false =
      ⟨false, false, false, true⟩ := by
  decide

/-- C7 counterexample: selecting the unknown topic `"история"` raises
a KeyError (an unhandled crash, not a user-visible rejection), and the
user's prior session has already been overwritten by the fresh data for
the unknown topic. -/
theorem C7_counterexample :
    (choose_topic bank1 ctxDone "история").2 = some Err.keyError ∧
    (choose_topic bank1 ctxDone "история").1.data ≠ ctxDone.data := by
  decide

/-- C7 (amended): for a topic not in the bank, `choose_topic` first
replaces the session data with the fresh session for that topic and then
`ask_question` raises KeyError on `QUIZZES[topic]` — the prior session is
not left untouched and no `UnknownTopicError` rejection exists. -/
theorem C7_theorem (bank : Bank) (ctx : FsmCtx) (t : String)
    (h : bankFind bank t = none) :
    choose_topic bank ctx t =
      (⟨some ⟨t, 0, 0, []⟩, ctx.fsm⟩, some Err.keyError) := by
  simp [choose_topic, ask_question, h]

/-- C7 witness: the amended statement at `bank1` and topic `"история"`. -/
theorem C7_theorem_witness :
    choose_topic bank1 ctxDone "история" =
      (⟨some ⟨"история", 0, 0, []⟩, FsmState.reportWaiting⟩,
        some Err.keyError) :=
  C7_theorem bank1 ctxDone "история" rfl

/-- C8 counterexample: a parsed bank whose question has `correct = 5`
with only two options loads successfully — no `MalformedBankError` is
raised for an out-of-range correct index. -/
theorem C8_counterexample :
    loadBank (BankSource.parsed badBank) = Except.ok badBank ∧
    badQuestion.options.length ≤ badQuestion.correct := by
  decide

/-- C2 (confirmed): from a fresh session on a topic with N questions,
exactly N answer submissions end in `ReportChoice.waiting` — any proper
prefix leaves the FSM state untouched — with the score equal to the
number of submissions matching that question's correct index and one
record per question. -/
theorem C2_theorem (bank : Bank) (t : String) (qs : List Question) (cs : List Int)
    (hfind : bankFind bank t = some qs)
    (hwf : ∀ q ∈ qs, q.correct < q.options.length)
    (hlen : cs.length = qs.length)
    (hne : cs ≠ []) :
    (∃ d', runAnswers bank ⟨some ⟨t, 0, 0, []⟩, .noState⟩ cs =
        .ok ⟨some d', .reportWaiting⟩ ∧
      d'.score = countCorrect qs cs ∧
      d'.results.length = qs.length) ∧
    (∀ k, k < cs.length →
      ∃ d', runAnswers bank ⟨some ⟨t, 0, 0, []⟩, .noState⟩ (cs.take k) =
        .ok ⟨some d', .noState⟩) := by
  constructor
  · obtain ⟨d', h1, h2, h3⟩ := runAnswers_complete bank qs .noState cs
      ⟨t, 0, 0, []⟩ hfind hwf (by simpa using hlen) hne
    refine ⟨d', h1, ?_, ?_⟩
    · simpa using h2
    · simpa [hlen] using h3
  · intro k hk
    exact runAnswers_partial bank qs .noState (cs.take k) ⟨t, 0, 0, []⟩
      hfind hwf (by simp [List.length_take]; omega)

/-- C2 witness: the two-question topic `"т2"` with choices `[0, 0]`
(first correct, second wrong). -/
theorem C2_theorem_witness :
    (∃ d', runAnswers bank2 ⟨some ⟨"т2", 0, 0, []⟩, .noState⟩ [0, 0] =
        .ok ⟨some d', .reportWaiting⟩ ∧
      d'.score = countCorrect [qA, qB] [0, 0] ∧
      d'.results.length = [qA, qB].length) ∧
    (∀ k, k < ([0, 0] : List Int).length →
      ∃ d', runAnswers bank2 ⟨some ⟨"т2", 0, 0, []⟩, .noState⟩
          (([0, 0] : List Int).take k) = .ok ⟨some d', .noState⟩) :=
  C2_theorem bank2 "т2" [qA, qB] [0, 0] rfl (by decide) rfl (by decide)

/-- C4 counterexample: a single record whose line-group is 3535
characters long. The loop flushes the still-empty chunk (emitting an
empty message) and then emits one chunk of 3537 characters — an emitted
chunk exceeds the 3500-character bound the loop checks against. -/
theorem C4_counterexample :
    send_text_report_chunks [bigRecord] =
      ["", reportLine 1 bigRecord ++ "\n\n"] ∧
    3500 < (reportLine 1 bigRecord ++ "\n\n").length := by
  have hmk : ∀ l : List Char, (String.mk l).length = l.length := fun _ => rfl
  have hq : bigQuestion.length = 3500 := by
    rw [bigQuestion, hmk, List.length_replicate]
  have hrl : reportLine 1 bigRecord =
      "❌" ++ " *Вопрос " ++ toString (1 : Nat) ++ ":* " ++ bigQuestion
        ++ "\n *Верный ответ:* _" ++ "b" ++ "_" := rfl
  have l1 : ("❌" : String).length = 1 := rfl
  have l2 : (" *Вопрос " : String).length = 9 := rfl
  have l3 : (toString (1 : Nat)).length = 1 := rfl
  have l4 : (":* " : String).length = 3 := rfl
  have l5 : ("\n *Верный ответ:* _" : String).length = 19 := rfl
  have l6 : ("b" : String).length = 1 := rfl
  have l7 : ("_" : String).length = 1 := rfl
  have l8 : ("\n\n" : String).length = 2 := rfl
  have l0 : ("" : String).length = 0 := rfl
  have hLlen : (reportLine 1 bigRecord).length = 3535 := by
    rw [hrl]
    simp only [String.length_append]
    rw [l1, l2, l3, l4, l5, l6, l7, hq]
  constructor
  · rw [send_text_report_chunks]
    have h1 : reportLines [bigRecord] = [reportLine 1 bigRecord] := rfl
    rw [h1]
    simp only [chunksAux]
    rw [if_pos (by rw [l0, hLlen]; omega)]
    have hne : ((reportLine 1 bigRecord ++ "\n\n") == "") = false :=
      beq_eq_false_iff_ne.mpr (append_nn_ne_empty _)
    simp [hne]
  · rw [String.length_append, hLlen, l8]
    omega

/-- C4 (amended): concatenating all emitted chunks always reproduces the
single unchunked render, and the trailing chunk is never empty; the
bound, however, holds only in the weaker form: when every line-group is
at most 3500 characters, every emitted chunk is at most 3502 characters
(the loop checks the 3500 bound before appending the two-character
separator, so chunks overshoot it by up to 2 — and an over-long
line-group overshoots it arbitrarily). -/
theorem C4_theorem :
    (∀ results : List AnswerRecord,
      concatAll (send_text_report_chunks results) = unchunkedRender results) ∧
    (∀ (results : List AnswerRecord) (c : String),
      (send_text_report_chunks results).getLast? = some c → c ≠ "") ∧
    (∀ results : List AnswerRecord,
      (∀ l ∈ reportLines results, l.length ≤ 3500) →
      ∀ c ∈ send_text_report_chunks results, c.length ≤ 3502) := by
  refine ⟨?_, ?_, ?_⟩
  · intro results
    rw [send_text_report_chunks, unchunkedRender, concat_chunksAux]
    exact String.empty_append _
  · intro results c h
    exact chunksAux_getLast_ne_empty (reportLines results) "" c h
  · intro results hls c hc
    exact chunksAux_bound (reportLines results) "" hls (by decide) c hc

/-- C4 witness: the amended statement at the one-record log
`[rec0small]`, whose single line-group fits the bound. -/
theorem C4_theorem_witness :
    concatAll (send_text_report_chunks [rec0small]) = unchunkedRender [rec0small] ∧
    (reportLine 1 rec0small ++ "\n\n").length ≤ 3502 :=
  ⟨C4_theorem.1 [rec0small],
    C4_theorem.2.2 [rec0small] (by decide) (reportLine 1 rec0small ++ "\n\n")
      (by decide)⟩

/-- C5 counterexample: with no Unicode font available, `build_pdf` of
the non-latin-1 title `"Тема"` fails outright with
`FPDFUnicodeEncodingException` — the title `pdf.cell` is unguarded — so
no artifact is produced at all. -/
theorem C5_counterexample :
    latin1Able "Тема" = false ∧
    build_pdf envNoFont "Тема" [] = .error Err.fpdfUnicode := by
  decide

/-- C5 (amended): with the fallback font, record texts are transliterated
to latin-1 (never failing a record cell over a missing glyph) and a
latin-1-representable title yields a non-empty artifact whose every text
element is latin-1 clean; the TITLE, however, is not guarded: a title
outside latin-1 makes the whole build fail. -/
theorem C5_theorem (env : RenderEnv) (title : String) (results : List AnswerRecord)
    (hfont : fontOk env = false) :
    (latin1Able title = false →
      build_pdf env title results = .error Err.fpdfUnicode) ∧
    (latin1Able title = true →
      ∃ elems, build_pdf env title results = .ok elems ∧ elems ≠ [] ∧
        ∀ e ∈ elems, pdfElemLatin1 e = true) := by
  constructor
  · intro ht
    simp [build_pdf, hfont, ht]
  · intro ht
    refine ⟨PdfElem.titleCell title ::
        (results.enum.map (fun p => recordElems env (p.1 + 1) p.2)).flatten,
      by simp [build_pdf, hfont, ht], by simp, ?_⟩
    intro e he
    rcases List.mem_cons.mp he with rfl | he
    · simpa [pdfElemLatin1] using ht
    · obtain ⟨grp, hgrp, hein⟩ := List.mem_flatten.mp he
      obtain ⟨pr, hpr, rfl⟩ := List.mem_map.mp hgrp
      exact pdfElemLatin1_recordElems env (pr.1 + 1) pr.2 hfont e hein

/-- C5 witness: the amended statement at the font-less environment with
the latin-1 title `"Report"`. -/
theorem C5_theorem_witness :
    (latin1Able "Report" = false →
      build_pdf envNoFont "Report" [] = .error Err.fpdfUnicode) ∧
    (latin1Able "Report" = true →
      ∃ elems, build_pdf envNoFont "Report" [] = .ok elems ∧ elems ≠ [] ∧
        ∀ e ∈ elems, pdfElemLatin1 e = true) :=
  C5_theorem envNoFont "Report" [] rfl

/-- C9 (confirmed): provided the title itself renders (Unicode font
available, or a latin-1 title), a record whose image file is missing
contributes only its text cell — the build completes and no image
element for that path appears anywhere in the artifact — and a record
whose image file exists but cannot be rendered degrades to its text cell
plus the placeholder cell, both present in the completed artifact. -/
theorem C9_theorem (env : RenderEnv) (title : String) (results : List AnswerRecord)
    (i : Nat) (item : AnswerRecord) (p : String)
    (hi : results[i]? = some item)
    (htitle : fontOk env = true ∨ latin1Able title = true) :
    (item.image_path = some p → env.imageExists p = false →
      ∃ elems, build_pdf env title results = .ok elems ∧
        recordElems env (i + 1) item = [pdfTextElem env (i + 1) item] ∧
        pdfTextElem env (i + 1) item ∈ elems ∧
        PdfElem.image p ∉ elems) ∧
    (item.image_path = some p → p ≠ "" → env.imageExists p = true →
      env.imageRenders p = false →
      ∃ elems, build_pdf env title results = .ok elems ∧
        recordElems env (i + 1) item =
          [pdfTextElem env (i + 1) item, PdfElem.imagePlaceholder] ∧
        pdfTextElem env (i + 1) item ∈ elems ∧
        PdfElem.imagePlaceholder ∈ elems) := by
  have hok : build_pdf env title results =
      .ok (PdfElem.titleCell title ::
        (results.enum.map (fun pr => recordElems env (pr.1 + 1) pr.2)).flatten) := by
    rcases htitle with h | h <;> simp [build_pdf, h]
  have hgrp : recordElems env (i + 1) item ∈
      results.enum.map (fun pr => recordElems env (pr.1 + 1) pr.2) :=
    List.mem_map.mpr ⟨(i, item), List.mem_enum_iff_getElem?.mpr hi, rfl⟩
  have htex : pdfTextElem env (i + 1) item ∈
      PdfElem.titleCell title ::
        (results.enum.map (fun pr => recordElems env (pr.1 + 1) pr.2)).flatten :=
    List.mem_cons_of_mem _
      (List.mem_flatten.mpr ⟨_, hgrp, pdfTextElem_mem_recordElems env (i + 1) item⟩)
  constructor
  · intro himg hex
    have hrec : recordElems env (i + 1) item = [pdfTextElem env (i + 1) item] := by
      simp only [recordElems, himg]
      by_cases hp : p = ""
      · rw [if_pos hp]
      · rw [if_neg hp, if_neg (by simp [hex])]
    refine ⟨_, hok, hrec, htex, ?_⟩
    intro hmem
    rcases List.mem_cons.mp hmem with hEq | hmem
    · exact PdfElem.noConfusion hEq
    · obtain ⟨grp, hgrpm, hein⟩ := List.mem_flatten.mp hmem
      obtain ⟨pr, _, rfl⟩ := List.mem_map.mp hgrpm
      have := image_mem_recordElems env (pr.1 + 1) pr.2 p hein
      rw [this] at hex
      exact Bool.noConfusion hex
  · intro himg hp hex hrnd
    have hrec : recordElems env (i + 1) item =
        [pdfTextElem env (i + 1) item, PdfElem.imagePlaceholder] := by
      simp only [recordElems, himg]
      rw [if_neg hp, if_pos hex, if_neg (by simp [hrnd])]
    refine ⟨_, hok, hrec, htex, ?_⟩
    refine List.mem_cons_of_mem _ (List.mem_flatten.mpr ⟨_, hgrp, ?_⟩)
    rw [hrec]
    simp

/-- C9 witness: the record `recImg` under an environment where its image
file is missing (part one) and one where it exists but cannot be
rendered (part two). -/
theorem C9_theorem_witness :
    (∃ elems, build_pdf envA "t" [recImg] = .ok elems ∧
      recordElems envA (0 + 1) recImg = [pdfTextElem envA (0 + 1) recImg] ∧
      pdfTextElem envA (0 + 1) recImg ∈ elems ∧
      PdfElem.image "images/pic.png" ∉ elems) ∧
    (∃ elems, build_pdf envB "t" [recImg] = .ok elems ∧
      recordElems envB (0 + 1) recImg =
        [pdfTextElem envB (0 + 1) recImg, PdfElem.imagePlaceholder] ∧
      pdfTextElem envB (0 + 1) recImg ∈ elems ∧
      PdfElem.imagePlaceholder ∈ elems) :=
  ⟨(C9_theorem envA "t" [recImg] 0 recImg "images/pic.png" rfl
      (Or.inl rfl)).1 rfl rfl,
   (C9_theorem envB "t" [recImg] 0 recImg "images/pic.png" rfl
      (Or.inl rfl)).2 rfl (by decide) rfl rfl⟩

/-- C10 (confirmed): in the answering phase, ANY integer choice —
including out-of-range ones — is accepted: no exception, a record is
appended scored as incorrect, the score is unchanged, the session
advances; indeed the resulting state is identical to that of any other
wrong answer, because `chosen` is only ever compared with `q["correct"]`
and never used as an index. -/
theorem C10_theorem (bank : Bank) (ctx : FsmCtx) (chosen : Int)
    (d : SessionData) (qs : List Question) (q : Question) (ca : String)
    (hd : ctx.data = some d)
    (hfind : bankFind bank d.topic = some qs)
    (hq : qs[d.idx]? = some q)
    (hca : q.options[q.correct]? = some ca)
    (hout : chosen < 0 ∨ (q.options.length : Int) ≤ chosen) :
    ∃ d', handle_answer bank ctx chosen =
        .ok ⟨some d', if d.idx + 1 < qs.length then ctx.fsm else .reportWaiting⟩ ∧
      d'.results = d.results ++
        [⟨d.idx, q.question, ca, q.image_file.map imgPath, false⟩] ∧
      d'.score = d.score ∧
      d'.idx = (if d.idx + 1 < qs.length then d.idx + 1 else d.idx) ∧
      ∀ c' : Int, c' ≠ (q.correct : Int) →
        handle_answer bank ctx c' = handle_answer bank ctx chosen := by
  have hcorrlt : q.correct < q.options.length := by
    rcases List.getElem?_eq_some.mp hca with ⟨h, _⟩
    exact h
  have hne : chosen ≠ (q.correct : Int) := by
    rcases hout with h | h <;> omega
  have hbe : (chosen == (q.correct : Int)) = false :=
    beq_eq_false_iff_ne.mpr hne
  refine ⟨⟨d.topic, if d.idx + 1 < qs.length then d.idx + 1 else d.idx, d.score,
      d.results ++ [⟨d.idx, q.question, ca, q.image_file.map imgPath, false⟩]⟩,
    ?_, rfl, rfl, rfl, ?_⟩
  · by_cases hlt : d.idx + 1 < qs.length <;>
      simp [handle_answer, hd, hfind, hq, hca, hbe, hlt]
  · intro c' hc'
    have hbe' : (c' == (q.correct : Int)) = false :=
      beq_eq_false_iff_ne.mpr hc'
    simp [handle_answer, hd, hfind, hq, hca, hbe, hbe']

/-- C10 witness: the out-of-range choice 7 on `bank1`'s fresh session
(two options, correct index 1). -/
theorem C10_theorem_witness :
    ∃ d', handle_answer bank1 ctxFresh1 7 =
        .ok ⟨some d',
          if 0 + 1 < [q0].length then ctxFresh1.fsm else .reportWaiting⟩ ∧
      d'.results = [] ++
        [⟨0, q0.question, "4", q0.image_file.map imgPath, false⟩] ∧
      d'.score = 0 ∧
      d'.idx = (if 0 + 1 < [q0].length then 0 + 1 else 0) ∧
      ∀ c' : Int, c' ≠ (q0.correct : Int) →
        handle_answer bank1 ctxFresh1 c' = handle_answer bank1 ctxFresh1 7 :=
  C10_theorem bank1 ctxFresh1 7 ⟨"математика", 0, 0, []⟩ [q0] q0 "4"
    rfl rfl rfl rfl (Or.inr (by decide))

/-- C8 (amended): loading fails fatally exactly when the source file is
absent or is not syntactically valid JSON (both RuntimeError at process
start); any syntactically valid bank — including structurally malformed
ones — is accepted as-is, its malformations surfacing only later during
the quiz. -/
theorem C8_theorem :
    loadBank BankSource.absent = .error LoadErr.notFound ∧
    loadBank BankSource.invalidJson = .error LoadErr.jsonSyntax ∧
    ∀ b : Bank, loadBank (BankSource.parsed b) = .ok b :=
  ⟨rfl, rfl, fun _ => rfl⟩

end AristarchBot
